import Mathlib

/-!
Verification of the advanced-Python-features module of the presentation
repository (`src/models/advanced_python_features.py`), shallowly embedded
in Lean 4.

The embedding models:
* the TTL memoization decorator `cache_with_ttl` (cache key derivation,
  hit/miss logic, storing, error propagation), with timestamps as `Int`
  and an explicit cache state threaded through calls;
* the `performance_monitor` context manager;
* the `SingletonMeta` metaclass and `ConfigurationManager`;
* `functional_data_analysis`;
* `PythonFeatureDemo` (`add_feature`, `score`).

Python values that can appear as call arguments are modelled by `PyVal`
(integers and strings suffice for the properties considered).  Wall-clock
readings are modelled as explicit `Int` parameters; fallible computations
are modelled as `Except`-valued functions.
-/

/-- Python argument values, as far as the cache-key encoding needs them:
integers and strings. -/
inductive PyVal where
  | int (n : Int)
  | str (s : String)
deriving DecidableEq, Repr

/-- Python `repr` of a `PyVal`, as used when an argument tuple or a
kwargs item list is converted with `str(...)`.  Integers render as their
decimal form; strings render wrapped in single quotes (escaping inside the
string is not modelled; the inputs considered contain no quotes). -/
def pyRepr : PyVal → String
  | PyVal.int n => toString n
  | PyVal.str s => "\x27" ++ s ++ "\x27"

/-- Python `str(args)` for the positional-argument tuple: `"()"` for the
empty tuple, a trailing comma for a 1-tuple, comma-space separation
otherwise. -/
def tupleStr : List PyVal → String
  | [] => "()"
  | [x] => "(" ++ pyRepr x ++ ",)"
  | xs => "(" ++ String.intercalate ", " (xs.map pyRepr) ++ ")"

/-- Python `str` of a single `(name, value)` item of `kwargs.items()`:
a 2-tuple whose first component is the keyword name (a string, rendered
with quotes) and whose second is the value. -/
def itemStr (p : String × PyVal) : String :=
  "(" ++ "\x27" ++ p.1 ++ "\x27" ++ ", " ++ pyRepr p.2 ++ ")"

/-- Python `str` of a list of kwargs items: square brackets, comma-space
separated. -/
def itemsStr (ps : List (String × PyVal)) : String :=
  "[" ++ String.intercalate ", " (ps.map itemStr) ++ "]"

/-- Ordering on `PyVal` used when `sorted` compares the second components
of two kwargs items.  Python would raise on an `int`/`str` comparison, but
`sorted(kwargs.items())` only ever compares values of items whose names are
equal, which cannot happen for items of one `kwargs` dict (names are
distinct); the arbitrary totalization `int < str` therefore never
influences the result on faithful inputs. -/
def PyVal.le : PyVal → PyVal → Prop
  | PyVal.int m, PyVal.int n => m ≤ n
  | PyVal.int _, PyVal.str _ => True
  | PyVal.str _, PyVal.int _ => False
  | PyVal.str a, PyVal.str b => a ≤ b

instance : DecidableRel PyVal.le := fun a b =>
  match a, b with
  | PyVal.int m, PyVal.int n => inferInstanceAs (Decidable (m ≤ n))
  | PyVal.int _, PyVal.str _ => inferInstanceAs (Decidable True)
  | PyVal.str _, PyVal.int _ => inferInstanceAs (Decidable False)
  | PyVal.str a, PyVal.str b => inferInstanceAs (Decidable (a ≤ b))

instance : IsTotal PyVal PyVal.le where
  total a b :=
    match a, b with
    | PyVal.int m, PyVal.int n => le_total m n
    | PyVal.int _, PyVal.str _ => Or.inl trivial
    | PyVal.str _, PyVal.int _ => Or.inr trivial
    | PyVal.str a, PyVal.str b => le_total a b

instance : IsTrans PyVal PyVal.le where
  trans a b c hab hbc :=
    match a, b, c, hab, hbc with
    | PyVal.int _, PyVal.int _, PyVal.int _, hab, hbc => le_trans hab hbc
    | PyVal.int _, PyVal.int _, PyVal.str _, _, _ => trivial
    | PyVal.int _, PyVal.str _, PyVal.int _, _, hbc => hbc.elim
    | PyVal.int _, PyVal.str _, PyVal.str _, _, _ => trivial
    | PyVal.str _, PyVal.int _, _, hab, _ => hab.elim
    | PyVal.str _, PyVal.str _, PyVal.int _, _, hbc => hbc.elim
    | PyVal.str _, PyVal.str _, PyVal.str _, hab, hbc => le_trans hab hbc

instance : IsAntisymm PyVal PyVal.le where
  antisymm a b hab hba :=
    match a, b, hab, hba with
    | PyVal.int _, PyVal.int _, hab, hba => congrArg PyVal.int (le_antisymm hab hba)
    | PyVal.int _, PyVal.str _, _, hba => hba.elim
    | PyVal.str _, PyVal.int _, hab, _ => hab.elim
    | PyVal.str _, PyVal.str _, hab, hba => congrArg PyVal.str (le_antisymm hab hba)

/-- Python tuple comparison on kwargs items `(name, value)`: lexicographic,
name first. -/
def itemLe (a b : String × PyVal) : Prop :=
  a.1 < b.1 ∨ (a.1 = b.1 ∧ PyVal.le a.2 b.2)

instance : DecidableRel itemLe := fun a b =>
  inferInstanceAs (Decidable (a.1 < b.1 ∨ (a.1 = b.1 ∧ PyVal.le a.2 b.2)))

instance : IsTotal (String × PyVal) itemLe where
  total a b := by
    rcases lt_trichotomy a.1 b.1 with h | h | h
    · exact Or.inl (Or.inl h)
    · rcases total_of PyVal.le a.2 b.2 with h2 | h2
      · exact Or.inl (Or.inr ⟨h, h2⟩)
      · exact Or.inr (Or.inr ⟨h.symm, h2⟩)
    · exact Or.inr (Or.inl h)

instance : IsTrans (String × PyVal) itemLe where
  trans a b c hab hbc := by
    rcases hab with h1 | ⟨h1, v1⟩
    · rcases hbc with h2 | ⟨h2, v2⟩
      · exact Or.inl (lt_trans h1 h2)
      · exact Or.inl (h2 ▸ h1)
    · rcases hbc with h2 | ⟨h2, v2⟩
      · exact Or.inl (h1 ▸ h2)
      · exact Or.inr ⟨h1.trans h2, trans_of PyVal.le v1 v2⟩

instance : IsAntisymm (String × PyVal) itemLe where
  antisymm a b hab hba := by
    rcases hab with h1 | ⟨h1, v1⟩
    · rcases hba with h2 | ⟨h2, v2⟩
      · exact absurd (lt_trans h1 h2) (lt_irrefl _)
      · exact absurd h1 (h2 ▸ lt_irrefl _)
    · rcases hba with h2 | ⟨h2, v2⟩
      · exact absurd h2 (h1 ▸ lt_irrefl _)
      · exact Prod.ext h1 (antisymm_of PyVal.le v1 v2)

/-- The cache key computed by the inner `wrapper` of `cache_with_ttl`:
`key = str(args) + str(sorted(kwargs.items()))`. -/
def makeKey (args : List PyVal) (kwargs : List (String × PyVal)) : String :=
  tupleStr args ++ itemsStr (List.insertionSort itemLe kwargs)

/-- The `cache` dict of one decorated function: a finite map from string
keys to `(stored_at, value)` pairs, represented as an association list. -/
abbrev Cache (V : Type) := List (String × (Int × V))

/-- Python dict lookup `cache[key]` (as an `Option`, mirroring the
`key in cache` guard). -/
def dictLookup {α : Type} (k : String) : List (String × α) → Option α
  | [] => none
  | (k2, v) :: rest => if k2 = k then some v else dictLookup k rest

/-- Python dict assignment `cache[key] = v`: replaces the value in place
when the key is present, appends a fresh binding otherwise. -/
def dictInsert {α : Type} (k : String) (v : α) : List (String × α) → List (String × α)
  | [] => [(k, v)]
  | (k2, v2) :: rest => if k2 = k then (k, v) :: rest else (k2, v2) :: dictInsert k v rest

/-- Observable outcome of one call of the TTL wrapper: the returned value
(or propagated failure), the cache state after the call, and how many
times the wrapped computation was invoked during the call (0 or 1). -/
structure CallResult (E V : Type) where
  result : Except E V
  cache : Cache V
  fCalls : Nat
deriving Repr

/-- The fall-through branch of the wrapper (lines 57-61 of the source):
`result = func(*args, **kwargs); cache[key] = (current_time, result);
return result`.  A failure of `func` propagates before the store happens,
so the cache is left untouched on error; either way `func` was invoked
exactly once. -/
def computeAndStore {E V : Type} (f : List PyVal → List (String × PyVal) → Except E V)
    (args : List PyVal) (kwargs : List (String × PyVal)) (key : String)
    (current_time : Int) (cache : Cache V) : CallResult E V :=
  match f args kwargs with
  | Except.ok result => ⟨Except.ok result, dictInsert key (current_time, result) cache, 1⟩
  | Except.error e => ⟨Except.error e, cache, 1⟩

/-- One invocation of the inner `wrapper` of `cache_with_ttl(ttl_seconds)`
(lines 45-61 of the source).  The clock reading `time.time()` is the
explicit parameter `current_time`; the closure state `cache` is threaded
explicitly.  A hit (`key in cache` and `current_time - cached_time <
ttl_seconds`) returns the cached result without touching the cache or the
wrapped function; any other case falls through to `computeAndStore`. -/
def wrapper {E V : Type} (ttl_seconds : Int)
    (f : List PyVal → List (String × PyVal) → Except E V)
    (args : List PyVal) (kwargs : List (String × PyVal))
    (current_time : Int) (cache : Cache V) : CallResult E V :=
  let key := makeKey args kwargs
  match dictLookup key cache with
  | some (cached_time, cached_result) =>
    if current_time - cached_time < ttl_seconds then
      ⟨Except.ok cached_result, cache, 0⟩
    else
      computeAndStore f args kwargs key current_time cache
  | none => computeAndStore f args kwargs key current_time cache

/-- A request against a wrapped function: argument lists, the clock
reading at the call, and the behaviour of the wrapped computation at that
call (modelled per call, so a computation whose outcome varies over time
is representable). -/
structure Request (E V : Type) where
  f : List PyVal → List (String × PyVal) → Except E V
  args : List PyVal
  kwargs : List (String × PyVal)
  now : Int

/-- Cache state after a sequence of wrapper calls. -/
def runCalls {E V : Type} (ttl : Int) (c : Cache V) : List (Request E V) → Cache V
  | [] => c
  | r :: rest => runCalls ttl (wrapper ttl r.f r.args r.kwargs r.now c).cache rest

lemma dictLookup_dictInsert_self {α : Type} (k : String) (v : α) (c : List (String × α)) :
    dictLookup k (dictInsert k v c) = some v := by
  induction c with
  | nil => simp [dictInsert, dictLookup]
  | cons p rest ih =>
    obtain ⟨k2, v2⟩ := p
    by_cases h : k2 = k
    · simp [dictInsert, dictLookup, h]
    · simp [dictInsert, dictLookup, h, ih]

lemma dictLookup_dictInsert_ne {α : Type} {k k2 : String} (v : α) (c : List (String × α))
    (h : k2 ≠ k) : dictLookup k2 (dictInsert k v c) = dictLookup k2 c := by
  induction c with
  | nil => simp [dictInsert, dictLookup, Ne.symm h]
  | cons p rest ih =>
    obtain ⟨k3, v3⟩ := p
    by_cases h3 : k3 = k
    · subst h3
      simp [dictInsert, dictLookup, Ne.symm h]
    · by_cases h2 : k3 = k2 <;> simp [dictInsert, dictLookup, h2, h3, ih, h]

lemma dictLookup_mem {α : Type} {k : String} {v : α} {c : List (String × α)}
    (h : dictLookup k c = some v) : (k, v) ∈ c := by
  induction c with
  | nil => simp [dictLookup] at h
  | cons p rest ih =>
    obtain ⟨k2, v2⟩ := p
    by_cases h2 : k2 = k
    · subst h2
      simp [dictLookup] at h
      simp [h]
    · simp [dictLookup, h2] at h
      exact List.mem_cons_of_mem _ (ih h)

lemma dictInsert_keys_subset {α : Type} {k : String} {v : α} {c : List (String × α)}
    {x : String} (h : x ∈ (dictInsert k v c).map Prod.fst) :
    x = k ∨ x ∈ c.map Prod.fst := by
  induction c with
  | nil => simpa [dictInsert] using h
  | cons p rest ih =>
    obtain ⟨k2, v2⟩ := p
    by_cases h2 : k2 = k
    · subst h2
      simpa [dictInsert] using h
    · simp only [dictInsert, h2, if_false, List.map_cons, List.mem_cons] at h
      rcases h with h | h
      · exact Or.inr (by simp [h])
      · rcases ih h with h | h
        · exact Or.inl h
        · exact Or.inr (by simp [h])

lemma dictInsert_keys_nodup {α : Type} (k : String) (v : α) (c : List (String × α))
    (h : (c.map Prod.fst).Nodup) : ((dictInsert k v c).map Prod.fst).Nodup := by
  induction c with
  | nil => simp [dictInsert]
  | cons p rest ih =>
    obtain ⟨k2, v2⟩ := p
    simp only [List.map_cons, List.nodup_cons] at h
    by_cases h2 : k2 = k
    · subst h2
      simp only [dictInsert, if_pos rfl, List.map_cons]
      exact List.Nodup.cons h.1 h.2
    · simp only [dictInsert, h2, if_false, List.map_cons]
      refine List.Nodup.cons ?_ (ih h.2)
      intro hmem
      rcases dictInsert_keys_subset hmem with h3 | h3
      · exact h2 h3
      · exact h.1 h3

lemma dictInsert_keys_mem {α : Type} (k : String) (v : α) (c : List (String × α))
    (k2 : String) (h : k2 ∈ c.map Prod.fst) : k2 ∈ (dictInsert k v c).map Prod.fst := by
  induction c with
  | nil => simp at h
  | cons p rest ih =>
    obtain ⟨k3, v3⟩ := p
    by_cases h3 : k3 = k
    · subst h3
      simpa [dictInsert] using h
    · simp only [List.map_cons, List.mem_cons] at h
      rcases h with h | h
      · simp [dictInsert, h3, h]
      · simp [dictInsert, h3, ih h]

lemma computeAndStore_fCalls {E V : Type} (f : List PyVal → List (String × PyVal) → Except E V)
    (args : List PyVal) (kwargs : List (String × PyVal)) (key : String)
    (now : Int) (c : Cache V) : (computeAndStore f args kwargs key now c).fCalls = 1 := by
  cases h : f args kwargs <;> simp [computeAndStore, h]

lemma wrapper_hit {E V : Type} {ttl : Int}
    {f : List PyVal → List (String × PyVal) → Except E V}
    {args : List PyVal} {kwargs : List (String × PyVal)} {now t : Int} {v : V}
    {c : Cache V} (hl : dictLookup (makeKey args kwargs) c = some (t, v))
    (hf : now - t < ttl) :
    wrapper ttl f args kwargs now c = ⟨Except.ok v, c, 0⟩ := by
  simp [wrapper, hl, hf]

lemma wrapper_miss_none {E V : Type} {ttl : Int}
    {f : List PyVal → List (String × PyVal) → Except E V}
    {args : List PyVal} {kwargs : List (String × PyVal)} {now : Int} {c : Cache V}
    (hl : dictLookup (makeKey args kwargs) c = none) :
    wrapper ttl f args kwargs now c =
      computeAndStore f args kwargs (makeKey args kwargs) now c := by
  simp [wrapper, hl]

lemma wrapper_miss_expired {E V : Type} {ttl : Int}
    {f : List PyVal → List (String × PyVal) → Except E V}
    {args : List PyVal} {kwargs : List (String × PyVal)} {now t : Int} {v : V}
    {c : Cache V} (hl : dictLookup (makeKey args kwargs) c = some (t, v))
    (hf : ttl ≤ now - t) :
    wrapper ttl f args kwargs now c =
      computeAndStore f args kwargs (makeKey args kwargs) now c := by
  simp [wrapper, hl, not_lt.mpr hf]

lemma wrapper_cache_cases {E V : Type} (ttl : Int)
    (f : List PyVal → List (String × PyVal) → Except E V)
    (args : List PyVal) (kwargs : List (String × PyVal)) (now : Int) (c : Cache V) :
    (wrapper ttl f args kwargs now c).cache = c ∨
      ∃ r, (wrapper ttl f args kwargs now c).cache =
        dictInsert (makeKey args kwargs) (now, r) c := by
  cases hl : dictLookup (makeKey args kwargs) c with
  | none =>
    rw [wrapper_miss_none hl]
    cases hf : f args kwargs with
    | ok r => exact Or.inr ⟨r, by simp [computeAndStore, hf]⟩
    | error e => exact Or.inl (by simp [computeAndStore, hf])
  | some p =>
    obtain ⟨t, v⟩ := p
    by_cases hfresh : now - t < ttl
    · exact Or.inl (by rw [wrapper_hit hl hfresh])
    · rw [wrapper_miss_expired hl (not_lt.mp hfresh)]
      cases hf : f args kwargs with
      | ok r => exact Or.inr ⟨r, by simp [computeAndStore, hf]⟩
      | error e => exact Or.inl (by simp [computeAndStore, hf])

lemma wrapper_keys_nodup {E V : Type} (ttl : Int)
    (f : List PyVal → List (String × PyVal) → Except E V)
    (args : List PyVal) (kwargs : List (String × PyVal)) (now : Int) (c : Cache V)
    (h : (c.map Prod.fst).Nodup) :
    (((wrapper ttl f args kwargs now c).cache).map Prod.fst).Nodup := by
  rcases wrapper_cache_cases ttl f args kwargs now c with hc | ⟨r, hc⟩
  · rw [hc]; exact h
  · rw [hc]; exact dictInsert_keys_nodup _ _ _ h

lemma wrapper_keys_mem {E V : Type} (ttl : Int)
    (f : List PyVal → List (String × PyVal) → Except E V)
    (args : List PyVal) (kwargs : List (String × PyVal)) (now : Int) (c : Cache V)
    (k : String) (h : k ∈ c.map Prod.fst) :
    k ∈ ((wrapper ttl f args kwargs now c).cache).map Prod.fst := by
  rcases wrapper_cache_cases ttl f args kwargs now c with hc | ⟨r, hc⟩
  · rw [hc]; exact h
  · rw [hc]; exact dictInsert_keys_mem _ _ _ _ h

lemma runCalls_keys_nodup {E V : Type} (ttl : Int) (reqs : List (Request E V))
    (c : Cache V) (h : (c.map Prod.fst).Nodup) :
    ((runCalls ttl c reqs).map Prod.fst).Nodup := by
  induction reqs generalizing c with
  | nil => exact h
  | cons r rest ih =>
    exact ih _ (wrapper_keys_nodup ttl r.f r.args r.kwargs r.now c h)

lemma runCalls_keys_mem {E V : Type} (ttl : Int) (reqs : List (Request E V))
    (c : Cache V) (k : String) (h : k ∈ c.map Prod.fst) :
    k ∈ (runCalls ttl c reqs).map Prod.fst := by
  induction reqs generalizing c with
  | nil => exact h
  | cons r rest ih =>
    exact ih _ (wrapper_keys_mem ttl r.f r.args r.kwargs r.now c k h)

/-- C1: for every wrapped computation `f` and argument list, a second call
of the wrapper issued while `now - stored_at < ttl` returns the identical
stored result and does not invoke `f` again; a hit never calls `f`.
Part one: whenever the cache holds `(t, v)` for the key of the call and
`now - t < ttl`, the wrapper returns `v`, leaves the cache unchanged and
performs zero invocations of `f`.  Part two: after a miss that stored a
result at time `t0`, a second call with the same arguments at any `t1`
with `t1 - t0 < ttl` returns that stored result with zero invocations,
whatever the wrapped computation would now do. -/
theorem ttl_cache_hit_serves_stored_result :
    (∀ (E V : Type) (ttl : Int) (f : List PyVal → List (String × PyVal) → Except E V)
       (args : List PyVal) (kwargs : List (String × PyVal)) (now t : Int) (v : V)
       (c : Cache V),
       dictLookup (makeKey args kwargs) c = some (t, v) → now - t < ttl →
       wrapper ttl f args kwargs now c = ⟨Except.ok v, c, 0⟩) ∧
    (∀ (E V : Type) (ttl : Int) (f g : List PyVal → List (String × PyVal) → Except E V)
       (args : List PyVal) (kwargs : List (String × PyVal)) (t0 t1 : Int) (r : V)
       (c : Cache V),
       dictLookup (makeKey args kwargs) c = none →
       f args kwargs = Except.ok r →
       t1 - t0 < ttl →
       wrapper ttl g args kwargs t1 (wrapper ttl f args kwargs t0 c).cache =
         ⟨Except.ok r, (wrapper ttl f args kwargs t0 c).cache, 0⟩) := by
  constructor
  · intro E V ttl f args kwargs now t v c hl hf
    exact wrapper_hit hl hf
  · intro E V ttl f g args kwargs t0 t1 r c hl hf hfresh
    have hc : (wrapper ttl f args kwargs t0 c).cache =
        dictInsert (makeKey args kwargs) (t0, r) c := by
      rw [wrapper_miss_none hl]
      simp [computeAndStore, hf]
    have hl2 : dictLookup (makeKey args kwargs) (wrapper ttl f args kwargs t0 c).cache =
        some (t0, r) := by
      rw [hc]; exact dictLookup_dictInsert_self _ _ _
    exact wrapper_hit hl2 hfresh

/-- Closed instance of `ttl_cache_hit_serves_stored_result`: a cache
holding `(0, 16)` under the key of `square(4)` serves 16 at time 30 with
`ttl = 60` without invoking the function, and a fresh miss at time 0
followed by a call at time 30 is a hit on the stored 16 even though the
function would now return 25. -/
theorem ttl_cache_hit_serves_stored_result_witness :
    wrapper (E := String) 60 (fun _ _ => Except.ok (16 : Int)) [PyVal.int 4] [] 30
        [(makeKey [PyVal.int 4] [], ((0 : Int), (16 : Int)))] =
      ⟨Except.ok 16, [(makeKey [PyVal.int 4] [], ((0 : Int), (16 : Int)))], 0⟩ ∧
    wrapper (E := String) 60 (fun _ _ => Except.ok (25 : Int)) [PyVal.int 4] [] 30
        (wrapper (E := String) 60 (fun _ _ => Except.ok (16 : Int))
          [PyVal.int 4] [] 0 []).cache =
      ⟨Except.ok 16,
        (wrapper (E := String) 60 (fun _ _ => Except.ok (16 : Int))
          [PyVal.int 4] [] 0 []).cache, 0⟩ :=
  ⟨ttl_cache_hit_serves_stored_result.1 String Int 60 _ [PyVal.int 4] [] 30 0 16 _
      (by decide) (by decide),
   ttl_cache_hit_serves_stored_result.2 String Int 60 _ _ [PyVal.int 4] [] 0 30 16 []
      (by decide) rfl (by decide)⟩

/-- C2: a call issued after the ttl has elapsed for the stored entry
(`ttl ≤ now - stored_at`) invokes `f` again exactly once, overwrites the
prior entry for the key with the fresh `(now, result)` pair, and returns
the fresh result. -/
theorem ttl_cache_expiry_refreshes_entry :
    ∀ (E V : Type) (ttl : Int) (f : List PyVal → List (String × PyVal) → Except E V)
      (args : List PyVal) (kwargs : List (String × PyVal)) (now t : Int) (v r : V)
      (c : Cache V),
      dictLookup (makeKey args kwargs) c = some (t, v) →
      ttl ≤ now - t →
      f args kwargs = Except.ok r →
      wrapper ttl f args kwargs now c =
        ⟨Except.ok r, dictInsert (makeKey args kwargs) (now, r) c, 1⟩ ∧
      dictLookup (makeKey args kwargs) (wrapper ttl f args kwargs now c).cache =
        some (now, r) := by
  intro E V ttl f args kwargs now t v r c hl hexp hf
  have h1 : wrapper ttl f args kwargs now c =
      ⟨Except.ok r, dictInsert (makeKey args kwargs) (now, r) c, 1⟩ := by
    rw [wrapper_miss_expired hl hexp]
    simp [computeAndStore, hf]
  refine ⟨h1, ?_⟩
  rw [h1]
  exact dictLookup_dictInsert_self _ _ _

/-- Closed instance of `ttl_cache_expiry_refreshes_entry`: an entry stored
at time 0 with `ttl = 60` is expired at time 61; the call re-invokes the
function (now returning 99), overwrites the entry with `(61, 99)` and
returns 99. -/
theorem ttl_cache_expiry_refreshes_entry_witness :
    wrapper (E := String) 60 (fun _ _ => Except.ok (99 : Int)) [PyVal.int 4] [] 61
        [(makeKey [PyVal.int 4] [], ((0 : Int), (16 : Int)))] =
      ⟨Except.ok 99,
        dictInsert (makeKey [PyVal.int 4] []) ((61 : Int), (99 : Int))
          [(makeKey [PyVal.int 4] [], ((0 : Int), (16 : Int)))], 1⟩ ∧
    dictLookup (makeKey [PyVal.int 4] [])
        (wrapper (E := String) 60 (fun _ _ => Except.ok (99 : Int)) [PyVal.int 4] [] 61
          [(makeKey [PyVal.int 4] [], ((0 : Int), (16 : Int)))]).cache =
      some (61, 99) :=
  ttl_cache_expiry_refreshes_entry String Int 60 _ [PyVal.int 4] [] 61 0 16 99 _
    (by decide) (by decide) rfl

/-- C3: if the wrapped computation fails on a miss (no entry or expired
entry), the wrapper propagates the failure unchanged, leaves the cache
exactly as it was, counts one invocation, and the immediately following
call with the same key (at any `now2 ≥ now`, with any behaviour of the
wrapped computation) is again a miss that invokes it exactly once. -/
theorem ttl_cache_error_propagates_uncached :
    ∀ (E V : Type) (ttl : Int) (f g : List PyVal → List (String × PyVal) → Except E V)
      (args : List PyVal) (kwargs : List (String × PyVal)) (now now2 : Int)
      (c : Cache V) (e : E),
      (dictLookup (makeKey args kwargs) c = none ∨
        ∃ t v, dictLookup (makeKey args kwargs) c = some (t, v) ∧ ttl ≤ now - t) →
      f args kwargs = Except.error e →
      now ≤ now2 →
      wrapper ttl f args kwargs now c = ⟨Except.error e, c, 1⟩ ∧
      (wrapper ttl g args kwargs now2 c).fCalls = 1 := by
  intro E V ttl f g args kwargs now now2 c e hmiss hf hle
  constructor
  · rcases hmiss with hl | ⟨t, v, hl, hexp⟩
    · rw [wrapper_miss_none hl]
      simp [computeAndStore, hf]
    · rw [wrapper_miss_expired hl hexp]
      simp [computeAndStore, hf]
  · rcases hmiss with hl | ⟨t, v, hl, hexp⟩
    · rw [wrapper_miss_none hl]
      exact computeAndStore_fCalls ..
    · have hexp2 : ttl ≤ now2 - t := le_trans hexp (by omega)
      rw [wrapper_miss_expired hl hexp2]
      exact computeAndStore_fCalls ..

/-- Closed instance of `ttl_cache_error_propagates_uncached`: on an empty
cache, a computation that fails with "boom" propagates the failure, stores
nothing, and the immediately following call still invokes the computation
once. -/
theorem ttl_cache_error_propagates_uncached_witness :
    wrapper (V := Int) 60 (fun _ _ => Except.error "boom") [PyVal.int 4] [] 0 [] =
      ⟨Except.error "boom", [], 1⟩ ∧
    (wrapper (V := Int) 60 (fun _ _ => Except.error "boom") [PyVal.int 4] [] 1
      []).fCalls = 1 :=
  ttl_cache_error_propagates_uncached String Int 60 _ _ [PyVal.int 4] [] 0 1 [] "boom"
    (Or.inl (by decide)) rfl (by decide)

/-- C5: `cache_with_ttl` performs no validation at construction, so a
non-positive `ttl` is not rejected; the code realizes the documented
alternative policy "never cache": with `ttl ≤ 0` and a clock that has not
run backwards past any stored timestamp, every call invokes the wrapped
computation (no call is ever answered from the cache alone). -/
theorem nonpositive_ttl_never_serves_cache :
    ∀ (E V : Type) (ttl : Int) (f : List PyVal → List (String × PyVal) → Except E V)
      (args : List PyVal) (kwargs : List (String × PyVal)) (now : Int) (c : Cache V),
      ttl ≤ 0 →
      (∀ p ∈ c, p.2.1 ≤ now) →
      (wrapper ttl f args kwargs now c).fCalls = 1 := by
  intro E V ttl f args kwargs now c httl hclock
  cases hl : dictLookup (makeKey args kwargs) c with
  | none =>
    rw [wrapper_miss_none hl]
    exact computeAndStore_fCalls ..
  | some p =>
    obtain ⟨t, v⟩ := p
    have ht : t ≤ now := hclock _ (dictLookup_mem hl)
    have hexp : ttl ≤ now - t := le_trans httl (by omega)
    rw [wrapper_miss_expired hl hexp]
    exact computeAndStore_fCalls ..

/-- Closed instance of `nonpositive_ttl_never_serves_cache`: with
`ttl = 0` and an entry stored at the current instant, the call still
invokes the wrapped computation. -/
theorem nonpositive_ttl_never_serves_cache_witness :
    (wrapper (E := String) 0 (fun _ _ => Except.ok (5 : Int)) [PyVal.int 4] [] 0
      [(makeKey [PyVal.int 4] [], ((0 : Int), (16 : Int)))]).fCalls = 1 :=
  nonpositive_ttl_never_serves_cache String Int 0 _ [PyVal.int 4] [] 0
    [(makeKey [PyVal.int 4] [], ((0 : Int), (16 : Int)))] (by decide) (by decide)

/-- C6: state invariants of the entry store.  Across any sequence of
wrapper calls, a store with at most one entry per key (distinct keys)
keeps that property, and no key ever disappears from the store (expired
entries are not purged; they persist until overwritten).  Moreover a
single call leaves the entry of every key other than the key of the call
untouched, so an entry can only be replaced by a call with the same
key. -/
theorem ttl_cache_state_invariants :
    ∀ (E V : Type) (ttl : Int) (reqs : List (Request E V)) (c : Cache V),
      ((c.map Prod.fst).Nodup → ((runCalls ttl c reqs).map Prod.fst).Nodup) ∧
      (∀ k, k ∈ c.map Prod.fst → k ∈ (runCalls ttl c reqs).map Prod.fst) ∧
      (∀ (f : List PyVal → List (String × PyVal) → Except E V)
         (args : List PyVal) (kwargs : List (String × PyVal)) (now : Int)
         (k2 : String), k2 ≠ makeKey args kwargs →
         dictLookup k2 (wrapper ttl f args kwargs now c).cache = dictLookup k2 c) := by
  intro E V ttl reqs c
  refine ⟨runCalls_keys_nodup ttl reqs c, fun k => runCalls_keys_mem ttl reqs c k, ?_⟩
  intro f args kwargs now k2 hne
  rcases wrapper_cache_cases ttl f args kwargs now c with hc | ⟨r, hc⟩
  · rw [hc]
  · rw [hc]
    exact dictLookup_dictInsert_ne _ _ hne

/-- Closed instance of `ttl_cache_state_invariants`: after one call on a
one-entry store the key set is still duplicate-free, the pre-existing key
is still present, and a key different from the key of the call maps to the same
entry as before. -/
theorem ttl_cache_state_invariants_witness :
    ((runCalls (E := String) 60
        [(makeKey [] [], ((0 : Int), (3 : Int)))]
        [⟨fun _ _ => Except.ok 7, [PyVal.int 1], [], 5⟩]).map Prod.fst).Nodup ∧
    makeKey [] [] ∈
      ((runCalls (E := String) 60
        [(makeKey [] [], ((0 : Int), (3 : Int)))]
        [⟨fun _ _ => Except.ok 7, [PyVal.int 1], [], 5⟩]).map Prod.fst) ∧
    dictLookup "zz"
        (wrapper (E := String) 60 (fun _ _ => Except.ok (7 : Int)) [PyVal.int 1] [] 5
          [(makeKey [] [], ((0 : Int), (3 : Int)))]).cache =
      dictLookup "zz" [(makeKey [] [], ((0 : Int), (3 : Int)))] :=
  ⟨(ttl_cache_state_invariants String Int 60
      [⟨fun _ _ => Except.ok 7, [PyVal.int 1], [], 5⟩]
      [(makeKey [] [], ((0 : Int), (3 : Int)))]).1 (by decide),
   (ttl_cache_state_invariants String Int 60
      [⟨fun _ _ => Except.ok 7, [PyVal.int 1], [], 5⟩]
      [(makeKey [] [], ((0 : Int), (3 : Int)))]).2.1 (makeKey [] []) (by decide),
   (ttl_cache_state_invariants String Int 60
      [⟨fun _ _ => Except.ok 7, [PyVal.int 1], [], 5⟩]
      [(makeKey [] [], ((0 : Int), (3 : Int)))]).2.2
     (fun _ _ => Except.ok 7) [PyVal.int 1] [] 5 "zz" (by decide)⟩

/-- C4 counterexample: the key encoding `str(args) + str(sorted(kwargs.items()))`
separates positional from keyword arguments, so passing the value 4
positionally and passing it as the keyword argument `n = 4` produce
different keys ("(4,)[]" versus "()[(\x27n\x27, 4)]"), refuting the part
of the claim that says the same value passed positionally or by keyword
yields the same key. -/
theorem cache_key_positional_keyword_mismatch :
    ¬ makeKey [PyVal.int 4] [] = makeKey [] [("n", PyVal.int 4)] := by decide

/-- C4 amended: the cache key is a deterministic, order-sensitive encoding
in which keyword arguments are normalized by sorting, so two calls whose
keyword-argument lists are permutations of one another (same positional
values) map to the same key; positional versus keyword supply of the same
value, however, yields different keys. -/
theorem cache_key_normalizes_kwarg_order :
    ∀ (args : List PyVal) (kw1 kw2 : List (String × PyVal)),
      kw1.Perm kw2 → makeKey args kw1 = makeKey args kw2 := by
  intro args kw1 kw2 hperm
  have hsorted : List.insertionSort itemLe kw1 = List.insertionSort itemLe kw2 :=
    List.eq_of_perm_of_sorted
      ((List.perm_insertionSort itemLe kw1).trans
        (hperm.trans (List.perm_insertionSort itemLe kw2).symm))
      (List.sorted_insertionSort itemLe kw1)
      (List.sorted_insertionSort itemLe kw2)
  unfold makeKey
  rw [hsorted]

/-- Closed instance of `cache_key_normalizes_kwarg_order`: supplying the
keyword arguments `b = 1, a = 2` in either order yields the same key. -/
theorem cache_key_normalizes_kwarg_order_witness :
    makeKey [] [("b", PyVal.int 1), ("a", PyVal.int 2)] =
      makeKey [] [("a", PyVal.int 2), ("b", PyVal.int 1)] :=
  cache_key_normalizes_kwarg_order [] _ _ (List.Perm.swap _ _ _)

/-- The `performance_monitor` context manager (lines 68-83 of the source):
records `start_time` on entry, runs the enclosed unit of work, and in the
`finally` block computes `duration = end_time - start_time` and reports it
(the printed log line is modelled by returning the duration alongside the
outcome).  A failing body has its error printed and re-raised (`raise`),
never swallowed; the value of a succeeding body passes through untouched. -/
def performance_monitor {E A : Type} (body : Except E A) (start_time end_time : Int) :
    Except E A × Int :=
  match body with
  | Except.ok a => (Except.ok a, end_time - start_time)
  | Except.error e => (Except.error e, end_time - start_time)

/-- C7: on every exit path of `performance_monitor` — normal completion
or failure of the enclosed unit of work — the elapsed duration
`end_time - start_time` is computed and reported, and the outcome of the
body (value or failure) is propagated unchanged, never suppressed or
altered. -/
theorem performance_monitor_measures_all_paths :
    ∀ (E A : Type) (body : Except E A) (start_time end_time : Int),
      (performance_monitor body start_time end_time).1 = body ∧
      (performance_monitor body start_time end_time).2 = end_time - start_time := by
  intro E A body start_time end_time
  cases body <;> simp [performance_monitor]

/-- Values storable in the `ConfigurationManager.config` dict. -/
inductive ConfigVal where
  | str (s : String)
  | bool (b : Bool)
  | strList (l : List String)
deriving DecidableEq, Repr

/-- The `ConfigurationManager` class (lines 149-166 of the source): its
only instance attribute is the `config` dict. -/
structure ConfigurationManager where
  config : List (String × ConfigVal)
deriving DecidableEq, Repr

/-- `ConfigurationManager.__init__`: the default configuration installed
when the initializer runs. -/
def ConfigurationManager.init : ConfigurationManager :=
  ⟨[("app_name", ConfigVal.str "Python & JavaScript Presentation"),
    ("version", ConfigVal.str "1.0.0"),
    ("debug", ConfigVal.bool true),
    ("features", ConfigVal.strList ["decorators", "context_managers", "metaclasses"])]⟩

/-- `ConfigurationManager.get_config`: `self.config.get(key, default)`. -/
def ConfigurationManager.get_config (m : ConfigurationManager) (key : String)
    (default : Option ConfigVal) : Option ConfigVal :=
  match dictLookup key m.config with
  | some v => some v
  | none => default

/-- `ConfigurationManager.set_config`: `self.config[key] = value`. -/
def ConfigurationManager.set_config (m : ConfigurationManager) (key : String)
    (value : ConfigVal) : ConfigurationManager :=
  ⟨dictInsert key value m.config⟩

/-- Outcome of one `ConfigurationManager()` constructor call under
`SingletonMeta.__call__`: the returned object, the `_instances` entry for
the class afterwards, and whether the initializer ran during this call
(0 or 1 times). -/
structure SingletonOutcome where
  inst : ConfigurationManager
  instances : Option ConfigurationManager
  inits : Nat
deriving DecidableEq, Repr

/-- `SingletonMeta.__call__` for `cls = ConfigurationManager` (lines
138-145 of the source): if the class has no entry in `_instances`, run the
ordinary construction (`__init__`) and record the new object; in every
case return the recorded object.  The `_instances` entry for the class is
the explicit `instances` argument; Python object identity is modelled by
the recorded instance itself (mutating the singleton mutates the recorded
entry). -/
def SingletonMeta.call (instances : Option ConfigurationManager) : SingletonOutcome :=
  match instances with
  | some inst => ⟨inst, some inst, 0⟩
  | none => ⟨ConfigurationManager.init, some ConfigurationManager.init, 1⟩

/-- C8: constructing `ConfigurationManager` always yields the single
recorded instance.  The first construction (empty `_instances`) runs the
initializer once and records the result; any construction that finds a
recorded instance returns exactly that instance without running the
initializer — in particular two consecutive constructions return the same
object, and a construction after `set_config` returns the mutated
instance (the set value still present) rather than one reset to the
defaults. -/
theorem configuration_manager_singleton :
    (SingletonMeta.call none =
      ⟨ConfigurationManager.init, some ConfigurationManager.init, 1⟩) ∧
    (∀ m : ConfigurationManager, SingletonMeta.call (some m) = ⟨m, some m, 0⟩) ∧
    (∀ s : Option ConfigurationManager,
      (SingletonMeta.call (SingletonMeta.call s).instances).inst =
        (SingletonMeta.call s).inst ∧
      (SingletonMeta.call (SingletonMeta.call s).instances).inits = 0) ∧
    (∀ (k : String) (v : ConfigVal),
      (SingletonMeta.call
          (some (ConfigurationManager.init.set_config k v))).inst.get_config k none =
        some v) := by
  refine ⟨rfl, fun m => rfl, ?_, ?_⟩
  · intro s
    cases s <;> exact ⟨rfl, rfl⟩
  · intro k v
    simp [SingletonMeta.call, ConfigurationManager.get_config,
      ConfigurationManager.set_config, dictLookup_dictInsert_self]

/-- The `statistics` sub-dict of `functional_data_analysis`.  `avg` is the
result of Python true division, modelled exactly as a rational. -/
structure Statistics where
  count : Nat
  max : Int
  min : Int
  avg : Rat
deriving DecidableEq, Repr

/-- The dict returned by `functional_data_analysis`. -/
structure AnalysisResult where
  original : List Int
  even_numbers : List Int
  squared_numbers : List Int
  total_sum : Int
  positive_squares : List Int
  statistics : Statistics
deriving DecidableEq, Repr

/-- Python `max` over a list: fails (raises `ValueError`) on the empty
list, otherwise folds the binary maximum. -/
def pyMax : List Int → Option Int
  | [] => none
  | x :: xs => some (xs.foldl max x)

/-- Python `min` over a list: fails on the empty list. -/
def pyMin : List Int → Option Int
  | [] => none
  | x :: xs => some (xs.foldl min x)

/-- Python true division `a / b` (with `b = len(numbers)` a natural
number): fails with `ZeroDivisionError` on zero, otherwise the exact
quotient. -/
def pyTrueDiv (a : Int) (b : Nat) : Option Rat :=
  if b = 0 then none else some ((a : Rat) / (b : Rat))

/-- `functional_data_analysis` (lines 195-221 of the source): filter of
evens, map of squares, `functools.reduce` sum with initial 0, list
comprehension of positive squares, and the statistics dict whose `max`,
`min` and `avg` entries are conditional expressions guarded by the
truthiness of `numbers` (`max(numbers) if numbers else 0`, etc.).  The
partial Python operations (`max`/`min` of an empty sequence, division by
zero) are modelled as `Option` failures so that totality is observable. -/
def functional_data_analysis (numbers : List Int) : Option AnalysisResult := do
  let even_numbers := numbers.filter fun x => x % 2 == 0
  let squared_numbers := numbers.map fun x => x ^ 2
  let total_sum := numbers.foldl (fun a b => a + b) 0
  let positive_squares := (numbers.filter fun x => decide (0 < x)).map fun x => x ^ 2
  let mx ← if numbers = [] then some 0 else pyMax numbers
  let mn ← if numbers = [] then some 0 else pyMin numbers
  let avg ← if numbers = [] then some 0 else pyTrueDiv total_sum numbers.length
  pure ⟨numbers, even_numbers, squared_numbers, total_sum, positive_squares,
    ⟨numbers.length, mx, mn, avg⟩⟩

/-- C9: `functional_data_analysis` is total on the empty list: it neither
fails on `max`/`min` of an empty sequence nor divides by zero, and returns
empty derived lists, `total_sum` 0, and statistics with `count` 0, `max`
0, `min` 0 and `avg` 0 through the guarded conditional branches. -/
theorem functional_data_analysis_total_on_empty :
    functional_data_analysis [] = some ⟨[], [], [], 0, [], ⟨0, 0, 0, 0⟩⟩ := rfl

/-- The `PythonFeatureDemo` class: instance attributes set by
`__init__` (`_name`, `_features`, `_score`; the `_score` attribute is
written once and never read — the `score` property recomputes from
`_features`). -/
structure PythonFeatureDemo where
  _name : String
  _features : List String
  _score : Int
deriving DecidableEq, Repr

/-- `PythonFeatureDemo.__init__(name)`. -/
def PythonFeatureDemo.init (name : String) : PythonFeatureDemo := ⟨name, [], 0⟩

/-- The `score` property: `len(self._features) * 10`. -/
def PythonFeatureDemo.score (d : PythonFeatureDemo) : Nat := d._features.length * 10

/-- `add_feature`: appends the feature only when it is not already
present. -/
def PythonFeatureDemo.add_feature (d : PythonFeatureDemo) (feature : String) :
    PythonFeatureDemo :=
  if feature ∈ d._features then d else { d with _features := d._features ++ [feature] }

/-- `get_features`: returns (a copy of) the feature list. -/
def PythonFeatureDemo.get_features (d : PythonFeatureDemo) : List String := d._features

lemma add_feature_of_mem {d : PythonFeatureDemo} {f : String} (h : f ∈ d._features) :
    d.add_feature f = d := by
  simp [PythonFeatureDemo.add_feature, h]

lemma add_feature_mem (d : PythonFeatureDemo) (f : String) :
    f ∈ (d.add_feature f)._features := by
  by_cases h : f ∈ d._features <;> simp [PythonFeatureDemo.add_feature, h]

lemma foldl_add_feature (fs : List String) :
    ∀ d : PythonFeatureDemo, d._features.Nodup →
      ((fs.foldl PythonFeatureDemo.add_feature d)._features).Nodup ∧
      ((fs.foldl PythonFeatureDemo.add_feature d)._features).toFinset =
        d._features.toFinset ∪ fs.toFinset := by
  induction fs with
  | nil => intro d hd; exact ⟨hd, by simp⟩
  | cons f rest ih =>
    intro d hd
    rw [List.foldl_cons]
    by_cases hmem : f ∈ d._features
    · rw [add_feature_of_mem hmem]
      obtain ⟨h1, h2⟩ := ih d hd
      refine ⟨h1, ?_⟩
      rw [h2, List.toFinset_cons, Finset.union_insert,
        Finset.insert_eq_self.mpr
          (Finset.mem_union_left _ (List.mem_toFinset.mpr hmem))]
    · have hst : (d.add_feature f)._features = d._features ++ [f] := by
        simp [PythonFeatureDemo.add_feature, hmem]
      have hnd : ((d.add_feature f)._features).Nodup := by
        rw [hst]
        exact List.Nodup.append hd (List.nodup_singleton f)
          (by intro a ha hb; rw [List.mem_singleton] at hb; subst hb; exact hmem ha)
      obtain ⟨h1, h2⟩ := ih (d.add_feature f) hnd
      refine ⟨h1, ?_⟩
      rw [h2, hst, List.toFinset_append]
      ext x
      simp only [Finset.mem_union, List.mem_toFinset, List.toFinset_cons,
        Finset.mem_insert, List.mem_singleton]
      tauto

/-- C10: `add_feature` is idempotent — adding the same feature twice
yields exactly the state reached by adding it once — and the `score`
property of a demo built by any sequence of `add_feature` calls from a
fresh instance equals 10 times the number of distinct features added. -/
theorem add_feature_idempotent_and_score_counts_distinct :
    (∀ (d : PythonFeatureDemo) (f : String),
      (d.add_feature f).add_feature f = d.add_feature f) ∧
    (∀ (name : String) (fs : List String),
      (fs.foldl PythonFeatureDemo.add_feature (PythonFeatureDemo.init name)).score =
        10 * fs.toFinset.card) := by
  constructor
  · intro d f
    exact add_feature_of_mem (add_feature_mem d f)
  · intro name fs
    obtain ⟨h1, h2⟩ := foldl_add_feature fs (PythonFeatureDemo.init name)
      (by simp [PythonFeatureDemo.init])
    have hcard :
        ((fs.foldl PythonFeatureDemo.add_feature (PythonFeatureDemo.init name))._features).length =
          fs.toFinset.card := by
      rw [← List.toFinset_card_of_nodup h1, h2]
      simp [PythonFeatureDemo.init]
    rw [PythonFeatureDemo.score, hcard, Nat.mul_comm]
